import Mathlib

/-!
# Verification of the go-clean-architecture User CRUD core

Shallow embedding of the repository's core logic:
* `internal/entities/errors.go` — error taxonomy (`DomainError`, factory
  functions, kind predicates);
* `internal/entities/user.go` — the `User` entity, `NewUser`,
  `UpdateName`, `UpdateEmail`, `validateUserInput`, `isValidEmail`;
* `internal/repository/user_repository.go` — outcome classification of the
  SQL statements (`Create`, `Update`, `Delete`, `GetByID`, `GetByEmail`),
  `isUniqueConstraintError`, `contains`, `containsSubstring`, plus a table
  model of the SQL statements' effects on the `users` table;
* `internal/usecase/user_usecase.go` — `CreateUser`, `GetUser`,
  `UpdateUser`, `DeleteUser`, `ListUsers`, parameterised over an abstract
  repository and recording the sequence of repository calls issued.

Go strings are modelled as `List Char` (rune sequences with consecutive
indices; exact for the ASCII strings all claims are about), Go `int` as
`Int`, `time.Time` as `Nat`, `uuid.UUID` as `Nat`.  Effects (`time.Now`,
`uuid.New`) become explicit parameters; fallible calls return
`Except`/`Option`.
-/

deriving instance DecidableEq for Except

namespace GoClean

/-- Go strings, modelled as their sequence of characters. -/
abbrev Str := List Char

/-! ## Error taxonomy — `internal/entities/errors.go` -/

/-- The sentinel errors of `entities/errors.go` (`errors.New` values). -/
inductive EntityErr where
  | ErrInvalidName
  | ErrInvalidEmail
  | ErrUserNotFound
  | ErrUserAlreadyExists
  | ErrEmailAlreadyUsed
deriving DecidableEq, Repr

/-- `ErrorType` of `entities/errors.go`. -/
inductive ErrorType where
  | ValidationError
  | NotFoundError
  | ConflictError
  | InternalError
deriving DecidableEq, Repr

/-- The wrapped cause a `DomainError` carries: nothing, one of the sentinel
entity errors, or a raw error surfaced by the store (kept as its text). -/
inductive ErrCause where
  | noCause
  | entity (e : EntityErr)
  | store (msg : Str)
deriving DecidableEq, Repr

/-- `DomainError` of `entities/errors.go`. -/
structure DomainError where
  etype : ErrorType
  message : Str
  cause : ErrCause
deriving DecidableEq, Repr

def NewValidationError (message : Str) (cause : ErrCause) : DomainError :=
  ⟨.ValidationError, message, cause⟩

def NewNotFoundError (message : Str) (cause : ErrCause) : DomainError :=
  ⟨.NotFoundError, message, cause⟩

def NewConflictError (message : Str) (cause : ErrCause) : DomainError :=
  ⟨.ConflictError, message, cause⟩

def NewInternalError (message : Str) (cause : ErrCause) : DomainError :=
  ⟨.InternalError, message, cause⟩

/-- `IsNotFoundError` of `entities/errors.go` (the repository layer only ever
returns `DomainError` values, so `errors.As` reduces to a kind test). -/
def IsNotFoundError (e : DomainError) : Bool :=
  e.etype == .NotFoundError

/-! ## The `User` entity — `internal/entities/user.go` -/

/-- `entities.User`.  `uuid.UUID` is modelled as `Nat`, `time.Time` as `Nat`. -/
structure User where
  ID : Nat
  Name : Str
  Email : Str
  CreatedAt : Nat
  UpdatedAt : Nat
deriving DecidableEq, Repr

/-- The scan loop of `isValidEmail`: `for i, char := range email` threading
`(atCount, dotAfterAt, atIndex)`, starting at index `i`.  Within one
iteration the `@`-branch updates `atCount`/`atIndex` before the `.`-branch
reads `atIndex`, exactly as the two sequential `if`s in the source do. -/
def scanEmail : List Char → Nat → Nat × Bool × Int → Nat × Bool × Int
  | [], _, st => st
  | c :: rest, i, (atCount, dotAfterAt, atIndex) =>
      let atCount' := if c = '@' then atCount + 1 else atCount
      let atIndex' := if c = '@' then (i : Int) else atIndex
      let dotAfterAt' :=
        if c = '.' ∧ atIndex' < (i : Int) ∧ atIndex' ≠ -1 then true else dotAfterAt
      scanEmail rest (i + 1) (atCount', dotAfterAt', atIndex')

/-- `isValidEmail` of `entities/user.go`: length at least 5, then the scan,
then `atCount == 1 && dotAfterAt && atIndex > 0 && atIndex < len(email)-1`. -/
def isValidEmail (email : Str) : Bool :=
  if email.length < 5 then false
  else
    match scanEmail email 0 (0, false, -1) with
    | (atCount, dotAfterAt, atIndex) =>
        atCount == 1 && dotAfterAt &&
          decide (0 < atIndex) && decide (atIndex < (email.length : Int) - 1)

/-- `validateUserInput` of `entities/user.go`. -/
def validateUserInput (name email : Str) : Option EntityErr :=
  if name = [] then some .ErrInvalidName
  else if email = [] then some .ErrInvalidEmail
  else if ¬ isValidEmail email then some .ErrInvalidEmail
  else none

/-- `NewUser` of `entities/user.go`.  `uuid.New()` and `time.Now()` are the
explicit parameters `freshId` and `now`. -/
def NewUser (name email : Str) (freshId now : Nat) : Except EntityErr User :=
  match validateUserInput name email with
  | some e => .error e
  | none => .ok ⟨freshId, name, email, now, now⟩

/-- `(*User).UpdateName` of `entities/user.go`. -/
def UpdateName (u : User) (name : Str) (now : Nat) : Except EntityErr User :=
  if name = [] then .error .ErrInvalidName
  else .ok { u with Name := name, UpdatedAt := now }

/-- `(*User).UpdateEmail` of `entities/user.go`. -/
def UpdateEmail (u : User) (email : Str) (now : Nat) : Except EntityErr User :=
  if email = [] then .error .ErrInvalidEmail
  else if ¬ isValidEmail email then .error .ErrInvalidEmail
  else .ok { u with Email := email, UpdatedAt := now }

/-! ## Repository layer — `internal/repository/user_repository.go` -/

/-- `containsSubstring` of `user_repository.go`: the loop
`for i := 0; i <= len(s)-len(substr); i++` comparing `s[i:i+len(substr)]`
with `substr` (when `len(s) < len(substr)` the loop body never runs). -/
def containsSubstring (s substr : Str) : Bool :=
  if substr.length ≤ s.length then
    (List.range (s.length - substr.length + 1)).any fun i =>
      decide ((s.drop i).take substr.length = substr)
  else false

/-- The hand-written `contains` of `user_repository.go`. -/
def contains (s substr : Str) : Bool :=
  decide (substr.length ≤ s.length) &&
    (decide (s = substr) ||
      (decide (substr.length < s.length) &&
        (decide (s.take substr.length = substr) ||
          decide (s.drop (s.length - substr.length) = substr) ||
          containsSubstring s substr)))

/-- The first duplicate-key signature inspected by `isUniqueConstraintError`. -/
def dupKeySig : Str := "duplicate key value".toList

/-- The second duplicate-key signature inspected by `isUniqueConstraintError`. -/
def uniqSig : Str := "unique constraint".toList

/-- `isUniqueConstraintError` of `user_repository.go`, applied to the text of
a (non-nil) store error. -/
def isUniqueConstraintError (msg : Str) : Bool :=
  contains msg dupKeySig || contains msg uniqSig

/-- Outcome of `db.ExecContext`: either the statement failed with an error
(kept as its text), or it succeeded and `RowsAffected()` subsequently
returns a count or itself fails. -/
inductive ExecOutcome where
  | err (msg : Str)
  | ok (rows : Except Str Nat)
deriving Repr

/-- Outcome of `db.QueryRowContext(...).Scan`: a row, `sql.ErrNoRows`, or
another error (kept as its text). -/
inductive QueryOutcome where
  | row (u : User)
  | noRows
  | qerr (msg : Str)
deriving DecidableEq, Repr

/-- `(*UserRepositoryImpl).Create`: classification of the INSERT's outcome
(the result value and its row count are discarded on success). -/
def RepoCreate (o : ExecOutcome) : Option DomainError :=
  match o with
  | .err msg =>
      if isUniqueConstraintError msg then
        some (NewConflictError "user already exists".toList (.entity .ErrUserAlreadyExists))
      else some (NewInternalError "failed to create user".toList (.store msg))
  | .ok _ => none

/-- `(*UserRepositoryImpl).Update`: classification of the UPDATE's outcome. -/
def RepoUpdate (o : ExecOutcome) : Option DomainError :=
  match o with
  | .err msg =>
      if isUniqueConstraintError msg then
        some (NewConflictError "email already in use".toList (.entity .ErrEmailAlreadyUsed))
      else some (NewInternalError "failed to update user".toList (.store msg))
  | .ok (.error msg) =>
      some (NewInternalError "failed to get rows affected".toList (.store msg))
  | .ok (.ok rowsAffected) =>
      if rowsAffected = 0 then
        some (NewNotFoundError "user not found for update".toList (.entity .ErrUserNotFound))
      else none

/-- `(*UserRepositoryImpl).Delete`: classification of the DELETE's outcome. -/
def RepoDelete (o : ExecOutcome) : Option DomainError :=
  match o with
  | .err msg => some (NewInternalError "failed to delete user".toList (.store msg))
  | .ok (.error msg) =>
      some (NewInternalError "failed to get rows affected".toList (.store msg))
  | .ok (.ok rowsAffected) =>
      if rowsAffected = 0 then
        some (NewNotFoundError "user not found for deletion".toList (.entity .ErrUserNotFound))
      else none

/-- `(*UserRepositoryImpl).GetByID`: classification of the SELECT's outcome. -/
def RepoGetByID (o : QueryOutcome) : Except DomainError User :=
  match o with
  | .row u => .ok u
  | .noRows => .error (NewNotFoundError "user not found".toList (.entity .ErrUserNotFound))
  | .qerr msg => .error (NewInternalError "failed to get user by ID".toList (.store msg))

/-- `(*UserRepositoryImpl).GetByEmail`: classification of the SELECT's outcome. -/
def RepoGetByEmail (o : QueryOutcome) : Except DomainError User :=
  match o with
  | .row u => .ok u
  | .noRows =>
      .error (NewNotFoundError "user not found by email".toList (.entity .ErrUserNotFound))
  | .qerr msg => .error (NewInternalError "failed to get user by email".toList (.store msg))

/-! ### A table model of the SQL statements

The repository issues five fixed SQL statements against the `users` table
(`email` carries the schema's unique constraint, `id` is the primary key).
Their effect is modelled on the table as a list of rows. -/

/-- The `users` table. -/
abbrev DbState := List User

/-- Error text PostgreSQL produces for a primary-key violation on `users`. -/
def pkeyDupMsg : Str :=
  "pq: duplicate key value violates unique constraint users_pkey".toList

/-- Error text PostgreSQL produces for violating the unique index on `email`. -/
def emailDupMsg : Str :=
  "pq: duplicate key value violates unique constraint users_email_key".toList

/-- `INSERT INTO users (id, name, email, created_at, updated_at) VALUES ...`:
fails on a duplicate `id` (primary key) or duplicate `email` (unique
constraint), otherwise appends the row. -/
def execInsert (st : DbState) (u : User) : ExecOutcome × DbState :=
  if st.any fun v => v.ID = u.ID then (.err pkeyDupMsg, st)
  else if st.any fun v => v.Email = u.Email then (.err emailDupMsg, st)
  else (.ok (.ok 1), st ++ [u])

/-- `UPDATE users SET name = $2, email = $3, updated_at = $4 WHERE id = $1`:
fails when a row is actually rewritten to an email another row already
holds; otherwise rewrites the matching rows and reports their count. -/
def execUpdateQ (st : DbState) (u : User) : ExecOutcome × DbState :=
  if (st.any fun v => v.ID = u.ID) ∧ (st.any fun v => v.ID ≠ u.ID ∧ v.Email = u.Email) then
    (.err emailDupMsg, st)
  else
    (.ok (.ok (st.filter fun v => v.ID = u.ID).length),
     st.map fun v =>
       if v.ID = u.ID then
         { v with Name := u.Name, Email := u.Email, UpdatedAt := u.UpdatedAt }
       else v)

/-- `DELETE FROM users WHERE id = $1`: removes the matching rows and reports
their count. -/
def execDeleteQ (st : DbState) (id : Nat) : ExecOutcome × DbState :=
  (.ok (.ok (st.filter fun v => v.ID = id).length),
   st.filter fun v => v.ID ≠ id)

/-- `SELECT ... FROM users WHERE id = $1` with `Scan`. -/
def queryByID (st : DbState) (id : Nat) : QueryOutcome :=
  match st.find? fun v => v.ID = id with
  | some u => .row u
  | none => .noRows

/-- `SELECT ... FROM users WHERE email = $1` with `Scan`. -/
def queryByEmail (st : DbState) (email : Str) : QueryOutcome :=
  match st.find? fun v => v.Email = email with
  | some u => .row u
  | none => .noRows

/-- Insertion into a list kept ordered by `created_at` descending. -/
def insertByCreatedDesc (u : User) : List User → List User
  | [] => [u]
  | v :: rest =>
      if u.CreatedAt ≤ v.CreatedAt then v :: insertByCreatedDesc u rest
      else u :: v :: rest

/-- `SELECT ... ORDER BY created_at DESC LIMIT $1 OFFSET $2`. -/
def listQ (st : DbState) (limit offset : Int) : List User :=
  ((st.foldr insertByCreatedDesc []).drop offset.toNat).take limit.toNat

/-! ## Use-case orchestrator — `internal/usecase/user_usecase.go`

The orchestrator depends on `repository.UserRepositoryInterface` only.  A
repository behaviour is a record of state-threading functions over an
arbitrary state type `σ`; each use-case operation additionally records the
sequence of repository calls it issues, so that claims about which storage
calls happen (and in which order) are statements about that trace. -/

/-- `dto.CreateUserRequest`. -/
structure CreateUserRequest where
  Name : Str
  Email : Str
deriving DecidableEq, Repr

/-- `dto.UpdateUserRequest` (`omitempty`: an absent field is the empty string). -/
structure UpdateUserRequest where
  Name : Str
  Email : Str
deriving DecidableEq, Repr

/-- `dto.UserResponse`. -/
structure UserResponse where
  ID : Nat
  Name : Str
  Email : Str
deriving DecidableEq, Repr

/-- `dto.ListUsersResponse` (`Total`, `Limit`, `Offset` are Go `int`s). -/
structure ListUsersResponse where
  Users : List UserResponse
  Total : Int
  Limit : Int
  Offset : Int
deriving DecidableEq, Repr

/-- One call issued to the repository, with its arguments. -/
inductive RepoCall where
  | getByID (id : Nat)
  | getByEmail (email : Str)
  | create (u : User)
  | update (u : User)
  | delete (id : Nat)
  | listCall (limit offset : Int)
deriving DecidableEq, Repr

/-- `repository.UserRepositoryInterface`: a repository behaviour over state
type `σ`.  Each operation returns its result and the successor state. -/
structure Repo (σ : Type) where
  getByID : σ → Nat → (Except DomainError User) × σ
  getByEmail : σ → Str → (Except DomainError User) × σ
  create : σ → User → (Option DomainError) × σ
  update : σ → User → (Option DomainError) × σ
  delete : σ → Nat → (Option DomainError) × σ
  list : σ → Int → Int → (Except DomainError (List User)) × σ

/-- The projection building a `dto.UserResponse` from a user. -/
def toUserResponse (u : User) : UserResponse :=
  ⟨u.ID, u.Name, u.Email⟩

/-- `(*UserUsecase).CreateUser`.  `uuid.New()` and `time.Now()` inside
`domain.NewUser` are the parameters `freshId` and `now`. -/
def CreateUser (repo : Repo σ) (st : σ) (freshId now : Nat)
    (req : CreateUserRequest) :
    (Except DomainError UserResponse) × σ × List RepoCall :=
  match NewUser req.Name req.Email freshId now with
  | .error e =>
      (.error (NewValidationError "invalid user input".toList (.entity e)), st, [])
  | .ok user =>
      match repo.getByEmail st req.Email with
      | (.ok _, st₁) =>
          (.error (NewConflictError "email already in use".toList
              (.entity .ErrEmailAlreadyUsed)),
           st₁, [.getByEmail req.Email])
      | (.error err, st₁) =>
          if IsNotFoundError err then
            match repo.create st₁ user with
            | (some cerr, st₂) =>
                (.error cerr, st₂, [.getByEmail req.Email, .create user])
            | (none, st₂) =>
                (.ok (toUserResponse user), st₂,
                 [.getByEmail req.Email, .create user])
          else (.error err, st₁, [.getByEmail req.Email])

/-- `(*UserUsecase).GetUser`. -/
def GetUser (repo : Repo σ) (st : σ) (id : Nat) :
    (Except DomainError UserResponse) × σ × List RepoCall :=
  match repo.getByID st id with
  | (.error e, st₁) => (.error e, st₁, [.getByID id])
  | (.ok u, st₁) => (.ok (toUserResponse u), st₁, [.getByID id])

/-- Prepend a recorded repository call to a use-case result. -/
def withCall (c : RepoCall) (r : α × σ × List RepoCall) : α × σ × List RepoCall :=
  (r.1, r.2.1, c :: r.2.2)

/-- The tail of `UpdateUser`: `u.userRepo.Update(ctx, user)` and the
response. -/
def updateUserWrite (repo : Repo σ) (st : σ) (user : User) :
    (Except DomainError UserResponse) × σ × List RepoCall :=
  match repo.update st user with
  | (some e, st') => (.error e, st', [.update user])
  | (none, st') => (.ok (toUserResponse user), st', [.update user])

/-- The `req.Email != ""` branch of `UpdateUser`: the `GetByEmail`
uniqueness check, then `user.UpdateEmail`, then the write. -/
def updateUserEmailStep (repo : Repo σ) (st : σ) (id : Nat) (email : Str)
    (now : Nat) (user : User) :
    (Except DomainError UserResponse) × σ × List RepoCall :=
  match repo.getByEmail st email with
  | (.ok existing, st₂) =>
      if existing.ID ≠ id then
        (.error (NewConflictError "email already in use by another user".toList
            (.entity .ErrEmailAlreadyUsed)),
         st₂, [.getByEmail email])
      else
        match UpdateEmail user email now with
        | .error e =>
            (.error (NewValidationError "invalid email".toList (.entity e)),
             st₂, [.getByEmail email])
        | .ok user' => withCall (.getByEmail email) (updateUserWrite repo st₂ user')
  | (.error err, st₂) =>
      if IsNotFoundError err then
        match UpdateEmail user email now with
        | .error e =>
            (.error (NewValidationError "invalid email".toList (.entity e)),
             st₂, [.getByEmail email])
        | .ok user' => withCall (.getByEmail email) (updateUserWrite repo st₂ user')
      else (.error err, st₂, [.getByEmail email])

/-- `(*UserUsecase).UpdateUser`.  `time.Now()` inside the entity's mutation
methods is the parameter `now`. -/
def UpdateUser (repo : Repo σ) (st : σ) (id : Nat) (req : UpdateUserRequest)
    (now : Nat) :
    (Except DomainError UserResponse) × σ × List RepoCall :=
  match repo.getByID st id with
  | (.error e, st₁) => (.error e, st₁, [.getByID id])
  | (.ok user₀, st₁) =>
      match (if req.Name = [] then .ok user₀ else UpdateName user₀ req.Name now :
          Except EntityErr User) with
      | .error e =>
          (.error (NewValidationError "invalid name".toList (.entity e)),
           st₁, [.getByID id])
      | .ok user₁ =>
          if req.Email = [] then
            withCall (.getByID id) (updateUserWrite repo st₁ user₁)
          else
            withCall (.getByID id) (updateUserEmailStep repo st₁ id req.Email now user₁)

/-- `(*UserUsecase).DeleteUser`: delegates to the repository directly. -/
def DeleteUser (repo : Repo σ) (st : σ) (id : Nat) :
    (Option DomainError) × σ × List RepoCall :=
  match repo.delete st id with
  | (r, st') => (r, st', [.delete id])

/-- `(*UserUsecase).ListUsers`. -/
def ListUsers (repo : Repo σ) (st : σ) (limit offset : Int) :
    (Except DomainError ListUsersResponse) × σ × List RepoCall :=
  let limit' := if limit ≤ 0 then 10 else limit
  let offset' := if offset < 0 then 0 else offset
  match repo.list st limit' offset' with
  | (.error e, st') => (.error e, st', [.listCall limit' offset'])
  | (.ok users, st') =>
      (.ok ⟨users.map toUserResponse, (users.map toUserResponse).length,
            limit', offset'⟩,
       st', [.listCall limit' offset'])

/-- `UserRepositoryImpl` running against the table model of the store: each
operation executes its SQL statement on the table and classifies the
outcome exactly as `user_repository.go` does. -/
def tableRepo : Repo DbState where
  getByID := fun st id => (RepoGetByID (queryByID st id), st)
  getByEmail := fun st email => (RepoGetByEmail (queryByEmail st email), st)
  create := fun st u =>
    match execInsert st u with
    | (o, st') => (RepoCreate o, st')
  update := fun st u =>
    match execUpdateQ st u with
    | (o, st') => (RepoUpdate o, st')
  delete := fun st id =>
    match execDeleteQ st id with
    | (o, st') => (RepoDelete o, st')
  list := fun st limit offset => (.ok (listQ st limit offset), st)

/-! ## Characterisation of `isValidEmail`'s scan loop -/

/-- Number of `'@'` characters. -/
def countAt (l : Str) : Nat := l.countP fun c => decide (c = '@')

/-- Whether the list holds a `'.'`. -/
def hasDot (l : Str) : Bool := l.any fun c => decide (c = '.')

/-- Evolution of `atIndex` alone through the scan loop. -/
def aiAux : List Char → Nat → Int → Int
  | [], _, ai => ai
  | c :: rest, i, ai => aiAux rest (i + 1) (if c = '@' then (i : Int) else ai)

/-- Contribution of the scanned suffix to `dotAfterAt`. -/
def daAux : List Char → Nat → Int → Bool
  | [], _, _ => false
  | c :: rest, i, ai =>
      let ai' := if c = '@' then (i : Int) else ai
      (if c = '.' ∧ ai' < (i : Int) ∧ ai' ≠ -1 then true else false) ||
        daAux rest (i + 1) ai'

/-- `dotAfterAt` as computed from the initial state: a `'.'` preceded
(strictly) by some `'@'`. -/
def dotAfterAt0 : List Char → Bool
  | [] => false
  | c :: rest => if c = '@' then hasDot rest else dotAfterAt0 rest

theorem scanEmail_eq (l : List Char) : ∀ (i ac : Nat) (da : Bool) (ai : Int),
    scanEmail l i (ac, da, ai) =
      (ac + countAt l, da || daAux l i ai, aiAux l i ai) := by
  induction l with
  | nil => intro i ac da ai; simp [scanEmail, countAt, daAux, aiAux]
  | cons c rest ih =>
      intro i ac da ai
      simp only [scanEmail, countAt, List.countP_cons, daAux, aiAux]
      rw [ih]
      refine Prod.ext ?_ (Prod.ext ?_ rfl)
      · by_cases hc : c = '@' <;> (simp [hc, countAt]; try omega)
      · by_cases hd : c = '.' ∧ (if c = '@' then (i : Int) else ai) < (i : Int) ∧
            (if c = '@' then (i : Int) else ai) ≠ -1 <;>
          cases da <;> simp [hd]

/-- Unfolding of one step of `daAux`. -/
theorem daAux_cons (c : Char) (rest : List Char) (i : Nat) (ai : Int) :
    daAux (c :: rest) i ai =
      ((if c = '.' ∧ (if c = '@' then (i : Int) else ai) < (i : Int) ∧
          (if c = '@' then (i : Int) else ai) ≠ -1 then true else false) ||
        daAux rest (i + 1) (if c = '@' then (i : Int) else ai)) := rfl

/-- Unfolding of one step of `hasDot`. -/
theorem hasDot_cons (c : Char) (rest : List Char) :
    hasDot (c :: rest) = (decide (c = '.') || hasDot rest) := rfl

theorem daAux_nat (l : List Char) : ∀ (i k : Nat), k < i →
    daAux l i (k : Int) = hasDot l := by
  induction l with
  | nil => intro i k _; simp [daAux, hasDot]
  | cons c rest ih =>
      intro i k hk
      rw [daAux_cons, hasDot_cons]
      by_cases hc : c = '@'
      · rw [if_pos hc]
        have hcond : ¬ (c = '.' ∧ (i : Int) < (i : Int) ∧ (i : Int) ≠ -1) := by
          rintro ⟨-, h2, -⟩; omega
        rw [if_neg hcond, Bool.false_or, ih (i + 1) i (by omega),
          decide_eq_false (by rw [hc]; decide), Bool.false_or]
      · rw [if_neg hc]
        by_cases hd : c = '.'
        · have hcond : c = '.' ∧ (k : Int) < (i : Int) ∧ (k : Int) ≠ -1 :=
            ⟨hd, by omega, by omega⟩
          rw [if_pos hcond, Bool.true_or, decide_eq_true hd, Bool.true_or]
        · have hcond : ¬ (c = '.' ∧ (k : Int) < (i : Int) ∧ (k : Int) ≠ -1) :=
            fun h => hd h.1
          rw [if_neg hcond, Bool.false_or, ih (i + 1) k (by omega),
            decide_eq_false hd, Bool.false_or]

theorem daAux_neg (l : List Char) : ∀ (i : Nat), daAux l i (-1) = dotAfterAt0 l := by
  induction l with
  | nil => intro i; simp [daAux, dotAfterAt0]
  | cons c rest ih =>
      intro i
      rw [daAux_cons]
      by_cases hc : c = '@'
      · rw [if_pos hc]
        have hcond : ¬ (c = '.' ∧ (i : Int) < (i : Int) ∧ (i : Int) ≠ -1) := by
          rintro ⟨-, h2, -⟩; omega
        rw [if_neg hcond, Bool.false_or, daAux_nat rest (i + 1) i (by omega)]
        rw [show dotAfterAt0 (c :: rest) = (if c = '@' then hasDot rest else dotAfterAt0 rest)
          from rfl, if_pos hc]
      · rw [if_neg hc]
        have hcond : ¬ (c = '.' ∧ (-1 : Int) < (i : Int) ∧ (-1 : Int) ≠ -1) := by
          rintro ⟨-, -, h3⟩; omega
        rw [if_neg hcond, Bool.false_or, ih (i + 1)]
        rw [show dotAfterAt0 (c :: rest) = (if c = '@' then hasDot rest else dotAfterAt0 rest)
          from rfl, if_neg hc]

theorem aiAux_zero (l : List Char) : ∀ (i : Nat) (a : Int), countAt l = 0 →
    aiAux l i a = a := by
  induction l with
  | nil => intro i a _; simp [aiAux]
  | cons c rest ih =>
      intro i a h
      simp only [countAt, List.countP_cons] at h
      by_cases hc : c = '@'
      · simp [hc] at h
      · simp only [aiAux, if_neg hc]
        exact ih (i + 1) a (by simpa [countAt, hc] using h)

theorem aiAux_one (l : List Char) : ∀ (i : Nat) (a : Int), countAt l = 1 →
    aiAux l i a = (i : Int) + (l.findIdx fun c => decide (c = '@') : Int) := by
  induction l with
  | nil => intro i a h; simp [countAt] at h
  | cons c rest ih =>
      intro i a h
      simp only [countAt, List.countP_cons] at h
      by_cases hc : c = '@'
      · have hrest : countAt rest = 0 := by
          simp [hc] at h; simpa [countAt] using h
        simp only [aiAux, if_pos hc]
        rw [aiAux_zero rest (i + 1) (i : Int) hrest]
        simp [List.findIdx_cons, hc]
      · have hrest : countAt rest = 1 := by
          simp [hc] at h; simpa [countAt] using h
        simp only [aiAux, if_neg hc]
        rw [ih (i + 1) a hrest]
        simp [List.findIdx_cons, hc]
        ring

theorem dotAfterAt0_one (l : List Char) : countAt l = 1 →
    dotAfterAt0 l = hasDot (l.drop ((l.findIdx fun c => decide (c = '@')) + 1)) := by
  induction l with
  | nil => intro h; simp [countAt] at h
  | cons c rest ih =>
      intro h
      simp only [countAt, List.countP_cons] at h
      by_cases hc : c = '@'
      · simp [dotAfterAt0, hc, List.findIdx_cons]
      · have hrest : countAt rest = 1 := by
          simp [hc] at h; simpa [countAt] using h
        simp only [dotAfterAt0, if_neg hc]
        rw [ih hrest]
        simp [List.findIdx_cons, hc]

/-- The rule `isValidEmail` actually implements: length at least 5; exactly
one `'@'`, standing neither first nor last; and at least one `'.'` strictly
after the `'@'` (anywhere after it, the final position included). -/
def amendedEmailRule (email : Str) : Bool :=
  decide (5 ≤ email.length) &&
    decide (countAt email = 1) &&
    (let p := email.findIdx fun c => decide (c = '@')
     decide (0 < p) && decide (p + 1 < email.length) && hasDot (email.drop (p + 1)))

/-- `isValidEmail` coincides with `amendedEmailRule` on every string. -/
theorem isValidEmail_eq_amended (email : Str) :
    isValidEmail email = amendedEmailRule email := by
  unfold isValidEmail
  by_cases hlen : email.length < 5
  · rw [if_pos hlen]
    have h5 : ¬ (5 ≤ email.length) := by omega
    simp [amendedEmailRule, h5]
  · rw [if_neg hlen, scanEmail_eq email 0 0 false (-1)]
    show ((0 + countAt email == 1) && (false || daAux email 0 (-1)) &&
        decide (0 < aiAux email 0 (-1)) &&
        decide (aiAux email 0 (-1) < (email.length : Int) - 1)) = amendedEmailRule email
    by_cases hcnt : countAt email = 1
    · rw [daAux_neg email 0, dotAfterAt0_one email hcnt, aiAux_one email 0 (-1) hcnt]
      set p : Nat := email.findIdx fun c => decide (c = '@') with hpdef
      have hrhs : amendedEmailRule email =
          (decide (5 ≤ email.length) && decide (countAt email = 1) &&
            (decide (0 < p) && decide (p + 1 < email.length) &&
              hasDot (email.drop (p + 1)))) := rfl
      rw [hrhs, hcnt, decide_eq_true (show 5 ≤ email.length by omega)]
      have c1 : decide (0 < ((0 : Nat) : Int) + (p : Int)) = decide (0 < p) := by
        by_cases h : 0 < p
        · rw [decide_eq_true h, decide_eq_true (by omega : (0 : Int) < ((0 : Nat) : Int) + (p : Int))]
        · rw [decide_eq_false h, decide_eq_false (by omega : ¬ ((0 : Int) < ((0 : Nat) : Int) + (p : Int)))]
      have c2 : decide (((0 : Nat) : Int) + (p : Int) < (email.length : Int) - 1) =
          decide (p + 1 < email.length) := by
        by_cases h : p + 1 < email.length
        · rw [decide_eq_true h,
            decide_eq_true (by omega : ((0 : Nat) : Int) + (p : Int) < (email.length : Int) - 1)]
        · rw [decide_eq_false h,
            decide_eq_false (by omega : ¬ (((0 : Nat) : Int) + (p : Int) < (email.length : Int) - 1))]
      rw [c1, c2]
      simp only [Nat.zero_add, beq_self_eq_true, Bool.true_and, Bool.false_or,
        decide_eq_true (rfl : (1 : Nat) = 1)]
      simp [Bool.and_assoc, Bool.and_comm, Bool.and_left_comm]
    · have hne : ((0 + countAt email == 1) : Bool) = false := by
        simp [hcnt]
      rw [hne]
      simp [amendedEmailRule, hcnt]

/-- The email rule exactly as claim C1 words it: exactly one `'@'`, with at
least one `'.'` appearing strictly after the `'@'` and not at the final
position of the string. -/
def claimedEmailRule (email : Str) : Bool :=
  decide (countAt email = 1) &&
    (let p := email.findIdx fun c => decide (c = '@')
     (List.range email.length).any fun j =>
       decide (email.getD j ' ' = '.') && decide (p < j) && decide (j + 1 ≠ email.length))

/-- Characterisation of `validateUserInput`: `InvalidName` exactly on an
empty name, otherwise `InvalidEmail` exactly when `amendedEmailRule`
rejects the email (an empty email is rejected by the rule's length bound),
otherwise success. -/
theorem validateUserInput_eq (name email : Str) :
    validateUserInput name email =
      (if name = [] then some .ErrInvalidName
       else if amendedEmailRule email then none else some .ErrInvalidEmail) := by
  unfold validateUserInput
  by_cases hn : name = []
  · rw [if_pos hn, if_pos hn]
  · rw [if_neg hn, if_neg hn]
    by_cases he : email = []
    · subst he
      rw [if_pos rfl]
      have : amendedEmailRule [] = false := rfl
      rw [this, if_neg (by simp)]
    · rw [if_neg he, isValidEmail_eq_amended email]
      by_cases hv : amendedEmailRule email = true
      · rw [if_pos hv, if_neg (by rw [hv]; intro h; exact h rfl)]
      · have hv' : amendedEmailRule email = false := by
          cases h : amendedEmailRule email
          · rfl
          · exact absurd h hv
        rw [hv', if_pos (by decide), if_neg (by decide)]

/-! ## Claim C1 -/

/-- C1 (counterexample): the claim's email rule (`claimedEmailRule`, a dot
strictly after the unique `'@'` and not at the final position) disagrees
with the validator on concrete non-empty inputs in both directions: the
validator accepts `"ab@c."` (whose only dot after the `'@'` is its last
character) and rejects `"a@.c"` (which the claimed rule accepts). -/
theorem C1_counterexample :
    validateUserInput ['a', 'b'] ['a', 'b', '@', 'c', '.'] = none ∧
    claimedEmailRule ['a', 'b', '@', 'c', '.'] = false ∧
    validateUserInput ['a', 'b'] ['a', '@', '.', 'c'] = some .ErrInvalidEmail ∧
    claimedEmailRule ['a', '@', '.', 'c'] = true ∧
    ['a', 'b'] ≠ ([] : Str) ∧ ['a', 'b', '@', 'c', '.'] ≠ ([] : Str) ∧
    ['a', '@', '.', 'c'] ≠ ([] : Str) := by decide

/-- C1 (amended): `validateUserInput` succeeds iff the name is non-empty and
the email satisfies `amendedEmailRule` (length at least 5; exactly one `'@'`,
neither first nor last; at least one `'.'` strictly after the `'@'`, the
final position allowed); it fails with `ErrInvalidName` exactly on an empty
name and with `ErrInvalidEmail` exactly on every other violation. -/
theorem C1_amended_validator (name email : Str) :
    (validateUserInput name email = none ↔
      name ≠ [] ∧ amendedEmailRule email = true) ∧
    (validateUserInput name email = some .ErrInvalidName ↔ name = []) ∧
    (validateUserInput name email = some .ErrInvalidEmail ↔
      name ≠ [] ∧ amendedEmailRule email = false) := by
  have h := validateUserInput_eq name email
  rw [h]
  by_cases hn : name = [] <;> by_cases hv : amendedEmailRule email = true <;>
    simp [hn, hv]

/-! ## `contains` and substring containment -/

/-- The standard substring-containment predicate: `substr` occurs as a
contiguous substring of `s`. -/
def SubstringOf (substr s : Str) : Prop :=
  ∃ t u, s = t ++ substr ++ u

theorem containsSubstring_iff (s sub : Str) :
    containsSubstring s sub = true ↔
      ∃ i, i + sub.length ≤ s.length ∧ (s.drop i).take sub.length = sub := by
  unfold containsSubstring
  by_cases hle : sub.length ≤ s.length
  · rw [if_pos hle]
    simp only [List.any_eq_true, List.mem_range, decide_eq_true_eq]
    constructor
    · rintro ⟨i, hi, heq⟩
      exact ⟨i, by omega, heq⟩
    · rintro ⟨i, hi, heq⟩
      exact ⟨i, by omega, heq⟩
  · rw [if_neg hle]
    constructor
    · intro h
      exact Bool.noConfusion h
    · rintro ⟨i, hi, -⟩
      exfalso
      omega

theorem substringOf_iff_drop_take (sub s : Str) :
    SubstringOf sub s ↔
      ∃ i, i + sub.length ≤ s.length ∧ (s.drop i).take sub.length = sub := by
  constructor
  · rintro ⟨t, u, rfl⟩
    refine ⟨t.length, ?_, ?_⟩
    · simp [List.length_append]
    · rw [List.append_assoc, List.drop_left, List.take_left]
  · rintro ⟨i, hle, heq⟩
    refine ⟨s.take i, (s.drop i).drop sub.length, ?_⟩
    conv_lhs => rw [← List.take_append_drop i s, ← List.take_append_drop sub.length (s.drop i)]
    rw [heq, List.append_assoc]

theorem contains_iff_substringOf (s sub : Str) :
    contains s sub = true ↔ SubstringOf sub s := by
  unfold contains
  simp only [Bool.and_eq_true, Bool.or_eq_true, decide_eq_true_eq]
  constructor
  · rintro ⟨hle, heq | ⟨hlt, (htake | hdrop) | hsub⟩⟩
    · exact ⟨[], [], by simp [heq]⟩
    · refine ⟨[], s.drop sub.length, ?_⟩
      conv_lhs => rw [← List.take_append_drop sub.length s]
      rw [htake]
      simp
    · refine ⟨s.take (s.length - sub.length), [], ?_⟩
      conv_lhs => rw [← List.take_append_drop (s.length - sub.length) s]
      rw [hdrop]
      simp
    · exact (substringOf_iff_drop_take sub s).mpr ((containsSubstring_iff s sub).mp hsub)
  · intro hsub
    obtain ⟨i, hle, heq⟩ := (substringOf_iff_drop_take sub s).mp hsub
    refine ⟨by omega, ?_⟩
    by_cases hs : s = sub
    · exact Or.inl hs
    · have hlt : sub.length < s.length := by
        rcases Nat.lt_or_ge sub.length s.length with h | h
        · exact h
        · exfalso
          have hi : i = 0 := by omega
          have hlen : sub.length = s.length := by omega
          subst hi
          rw [List.drop_zero, hlen, List.take_length] at heq
          exact hs heq
      exact Or.inr ⟨hlt, Or.inr ((containsSubstring_iff s sub).mpr ⟨i, hle, heq⟩)⟩

/-! ## Claim C10 -/

/-- C10: the hand-written `contains(s, substr)` returns true iff `substr`
occurs as a contiguous substring of `s` (so in particular the empty string
is contained in every string); this is the predicate behind the
Conflict-vs-Internal classification of store errors. -/
theorem C10_contains_iff_substring (s substr : Str) :
    (contains s substr = true ↔ SubstringOf substr s) ∧
    contains s [] = true := by
  refine ⟨contains_iff_substringOf s substr, ?_⟩
  exact (contains_iff_substringOf s []).mpr ⟨[], s, rfl⟩

theorem isUniqueConstraintError_iff (msg : Str) :
    isUniqueConstraintError msg = true ↔
      SubstringOf dupKeySig msg ∨ SubstringOf uniqSig msg := by
  unfold isUniqueConstraintError
  rw [Bool.or_eq_true, contains_iff_substringOf, contains_iff_substringOf]

/-! ## Claim C5 -/

/-- C5: a failure of the write statement underlying the repository's
`Create` or `Update` is classified as `Conflict` exactly when the store
error's text contains one of the unique/duplicate-key signatures
(`"duplicate key value"` or `"unique constraint"`) as a substring, and as
`Internal` for every other store failure. -/
theorem C5_write_error_classification (msg : Str) :
    (∃ e, RepoCreate (.err msg) = some e ∧
      (e.etype = .ConflictError ↔
        SubstringOf dupKeySig msg ∨ SubstringOf uniqSig msg) ∧
      (e.etype = .InternalError ↔
        ¬ (SubstringOf dupKeySig msg ∨ SubstringOf uniqSig msg))) ∧
    (∃ e, RepoUpdate (.err msg) = some e ∧
      (e.etype = .ConflictError ↔
        SubstringOf dupKeySig msg ∨ SubstringOf uniqSig msg) ∧
      (e.etype = .InternalError ↔
        ¬ (SubstringOf dupKeySig msg ∨ SubstringOf uniqSig msg))) := by
  have hc : RepoCreate (.err msg) =
      (if isUniqueConstraintError msg then
        some (NewConflictError "user already exists".toList (.entity .ErrUserAlreadyExists))
      else some (NewInternalError "failed to create user".toList (.store msg))) := rfl
  have hup : RepoUpdate (.err msg) =
      (if isUniqueConstraintError msg then
        some (NewConflictError "email already in use".toList (.entity .ErrEmailAlreadyUsed))
      else some (NewInternalError "failed to update user".toList (.store msg))) := rfl
  by_cases hu : isUniqueConstraintError msg = true
  · have hs : SubstringOf dupKeySig msg ∨ SubstringOf uniqSig msg :=
      (isUniqueConstraintError_iff msg).mp hu
    constructor
    · exact ⟨NewConflictError "user already exists".toList (.entity .ErrUserAlreadyExists),
        by rw [hc, if_pos hu], iff_of_true rfl hs,
        iff_of_false (by simp [NewConflictError]) (not_not_intro hs)⟩
    · exact ⟨NewConflictError "email already in use".toList (.entity .ErrEmailAlreadyUsed),
        by rw [hup, if_pos hu], iff_of_true rfl hs,
        iff_of_false (by simp [NewConflictError]) (not_not_intro hs)⟩
  · have hs : ¬ (SubstringOf dupKeySig msg ∨ SubstringOf uniqSig msg) :=
      fun h => hu ((isUniqueConstraintError_iff msg).mpr h)
    constructor
    · exact ⟨NewInternalError "failed to create user".toList (.store msg),
        by rw [hc, if_neg hu], iff_of_false (by simp [NewInternalError]) hs,
        iff_of_true rfl hs⟩
    · exact ⟨NewInternalError "failed to update user".toList (.store msg),
        by rw [hup, if_neg hu], iff_of_false (by simp [NewInternalError]) hs,
        iff_of_true rfl hs⟩

/-! ## Claim C6 -/

/-- C6 (counterexample): an UPDATE whose write fails with a
unique-constraint error text is classified `Conflict`, not `Internal` as
the claim states for every write failure. -/
theorem C6_counterexample :
    RepoUpdate (.err "unique constraint".toList) =
      some (NewConflictError "email already in use".toList
        (.entity .ErrEmailAlreadyUsed)) ∧
    ErrorType.ConflictError ≠ ErrorType.InternalError := by decide

/-- C6 (amended): `Update` and `Delete` signal `NotFound` exactly when the
write executes and affects zero rows; a failure reading the affected-row
count is `Internal`; a failing DELETE write is `Internal`, while a failing
UPDATE write is `Conflict` on a unique/duplicate-key signature and
`Internal` otherwise; and `DeleteUser` called twice on an existing id
yields success then `NotFound`. -/
theorem C6_amended_rowcount_notfound :
    (∀ n : Nat, (∃ e, RepoUpdate (.ok (.ok n)) = some e ∧ e.etype = .NotFoundError) ↔ n = 0) ∧
    (∀ n : Nat, (∃ e, RepoDelete (.ok (.ok n)) = some e ∧ e.etype = .NotFoundError) ↔ n = 0) ∧
    (∀ n : Nat, RepoUpdate (.ok (.ok n)) = none ↔ n ≠ 0) ∧
    (∀ n : Nat, RepoDelete (.ok (.ok n)) = none ↔ n ≠ 0) ∧
    (∀ msg, ∃ e, RepoUpdate (.ok (.error msg)) = some e ∧ e.etype = .InternalError) ∧
    (∀ msg, ∃ e, RepoDelete (.ok (.error msg)) = some e ∧ e.etype = .InternalError) ∧
    (∀ msg, ∃ e, RepoDelete (.err msg) = some e ∧ e.etype = .InternalError) ∧
    (∀ msg, ∃ e, RepoUpdate (.err msg) = some e ∧
      e.etype = (if isUniqueConstraintError msg then .ConflictError else .InternalError)) ∧
    (∀ (st : DbState) (id : Nat), (∃ u ∈ st, u.ID = id) →
      ∃ st' tr tr' e, DeleteUser tableRepo st id = (none, st', tr) ∧
        DeleteUser tableRepo st' id = (some e, st', tr') ∧
        e.etype = .NotFoundError) := by
  refine ⟨?_, ?_, ?_, ?_, ?_, ?_, ?_, ?_, ?_⟩
  · intro n
    constructor
    · rintro ⟨e, he, het⟩
      by_contra hn
      rw [show RepoUpdate (.ok (.ok n)) =
        (if n = 0 then some (NewNotFoundError "user not found for update".toList
          (.entity .ErrUserNotFound)) else none) from rfl, if_neg hn] at he
      exact Option.noConfusion he
    · rintro rfl
      exact ⟨_, rfl, rfl⟩
  · intro n
    constructor
    · rintro ⟨e, he, het⟩
      by_contra hn
      rw [show RepoDelete (.ok (.ok n)) =
        (if n = 0 then some (NewNotFoundError "user not found for deletion".toList
          (.entity .ErrUserNotFound)) else none) from rfl, if_neg hn] at he
      exact Option.noConfusion he
    · rintro rfl
      exact ⟨_, rfl, rfl⟩
  · intro n
    rw [show RepoUpdate (.ok (.ok n)) =
      (if n = 0 then some (NewNotFoundError "user not found for update".toList
        (.entity .ErrUserNotFound)) else none) from rfl]
    by_cases hn : n = 0
    · rw [if_pos hn]
      simp [hn]
    · rw [if_neg hn]
      simp [hn]
  · intro n
    rw [show RepoDelete (.ok (.ok n)) =
      (if n = 0 then some (NewNotFoundError "user not found for deletion".toList
        (.entity .ErrUserNotFound)) else none) from rfl]
    by_cases hn : n = 0
    · rw [if_pos hn]
      simp [hn]
    · rw [if_neg hn]
      simp [hn]
  · intro msg
    exact ⟨_, rfl, rfl⟩
  · intro msg
    exact ⟨_, rfl, rfl⟩
  · intro msg
    exact ⟨_, rfl, rfl⟩
  · intro msg
    have hup : RepoUpdate (.err msg) =
        (if isUniqueConstraintError msg then
          some (NewConflictError "email already in use".toList (.entity .ErrEmailAlreadyUsed))
        else some (NewInternalError "failed to update user".toList (.store msg))) := rfl
    by_cases hu : isUniqueConstraintError msg = true
    · refine ⟨NewConflictError "email already in use".toList (.entity .ErrEmailAlreadyUsed),
        by rw [hup, if_pos hu], ?_⟩
      rw [if_pos hu]
      rfl
    · refine ⟨NewInternalError "failed to update user".toList (.store msg),
        by rw [hup, if_neg hu], ?_⟩
      rw [if_neg hu]
      rfl
  · rintro st id ⟨u, hu, hid⟩
    have hmem : u ∈ st.filter fun v => v.ID = id := by
      rw [List.mem_filter]
      exact ⟨hu, by simp [hid]⟩
    have hne : (st.filter fun v => v.ID = id).length ≠ 0 := by
      have := List.ne_nil_of_mem hmem
      simpa [List.length_eq_zero] using this
    have hgone : ((st.filter fun v => v.ID ≠ id).filter fun v => v.ID = id) = [] := by
      rw [List.filter_eq_nil_iff]
      intro a ha
      have := (List.mem_filter.mp ha).2
      simpa using this
    refine ⟨st.filter fun v => v.ID ≠ id, [.delete id], [.delete id],
      NewNotFoundError "user not found for deletion".toList (.entity .ErrUserNotFound),
      ?_, ?_, rfl⟩
    · show (RepoDelete (.ok (.ok (st.filter fun v => v.ID = id).length)),
        st.filter fun v => v.ID ≠ id, [RepoCall.delete id]) = _
      rw [show RepoDelete (.ok (.ok (st.filter fun v => v.ID = id).length)) =
        (if (st.filter fun v => v.ID = id).length = 0 then
          some (NewNotFoundError "user not found for deletion".toList
            (.entity .ErrUserNotFound)) else none) from rfl, if_neg hne]
    · show (RepoDelete (.ok (.ok ((st.filter fun v => v.ID ≠ id).filter fun v => v.ID = id).length)),
        (st.filter fun v => v.ID ≠ id).filter fun v => v.ID ≠ id, [RepoCall.delete id]) = _
      rw [hgone]
      refine Prod.ext rfl (Prod.ext ?_ rfl)
      rw [List.filter_filter]
      simp

/-! ## Claims C2 and C4 — `CreateUser` -/

theorem NewUser_ok (name email : Str) (freshId now : Nat)
    (hv : validateUserInput name email = none) :
    NewUser name email freshId now = .ok ⟨freshId, name, email, now, now⟩ := by
  unfold NewUser
  rw [hv]

theorem NewUser_err (name email : Str) (freshId now : Nat) (e : EntityErr)
    (hv : validateUserInput name email = some e) :
    NewUser name email freshId now = .error e := by
  unfold NewUser
  rw [hv]

/-- C2 (amended): whenever the entity validation of `(name, email)` fails —
in particular for an empty name or the malformed emails `"noat.com"`,
`"a@b"` and `"a@b."` (but not `"a@.com"`, which the validator accepts) —
`CreateUser` returns a `Validation`-kind error, leaves the store state
untouched and issues no repository call at all. -/
theorem C2_amended_validation_before_io {σ : Type} (repo : Repo σ) (st : σ)
    (freshId now : Nat) (req : CreateUserRequest) (e : EntityErr)
    (hv : validateUserInput req.Name req.Email = some e) :
    CreateUser repo st freshId now req =
      (.error (NewValidationError "invalid user input".toList (.entity e)), st, []) ∧
    (NewValidationError "invalid user input".toList (.entity e)).etype =
      .ValidationError := by
  refine ⟨?_, rfl⟩
  unfold CreateUser
  rw [NewUser_err req.Name req.Email freshId now e hv]

/-- Closed instance of C2's amended theorem at the malformed email
`"noat.com"` on the table-backed repository. -/
theorem C2_amended_validation_witness :
    validateUserInput ['J', 'o'] "noat.com".toList = some .ErrInvalidEmail ∧
    CreateUser tableRepo ([] : DbState) 1 0 ⟨['J', 'o'], "noat.com".toList⟩ =
      (.error (NewValidationError "invalid user input".toList (.entity .ErrInvalidEmail)),
       [], []) :=
  ⟨by decide,
   (C2_amended_validation_before_io tableRepo ([] : DbState) 1 0
      ⟨['J', 'o'], "noat.com".toList⟩ .ErrInvalidEmail (by decide)).1⟩

/-- C2 (counterexample): `"a@.com"`, which the claim lists as malformed, is
accepted by the validator, so `CreateUser` with it consults the store (a
`getByEmail` and a `create` are issued) instead of failing `Validation`. -/
theorem C2_counterexample :
    validateUserInput ['J', 'o'] "a@.com".toList = none ∧
    (CreateUser tableRepo ([] : DbState) 7 3 ⟨['J', 'o'], "a@.com".toList⟩).2.2 =
      [.getByEmail "a@.com".toList,
       .create ⟨7, ['J', 'o'], "a@.com".toList, 3, 3⟩] ∧
    (CreateUser tableRepo ([] : DbState) 7 3 ⟨['J', 'o'], "a@.com".toList⟩).1 =
      .ok ⟨7, ['J', 'o'], "a@.com".toList⟩ := by decide

/-- C4: for valid input, `CreateUser` first consults `getByEmail`: a found
user yields `Conflict` with no `create` call; a non-`NotFound` failure is
propagated unchanged with no `create` call; on `NotFound` the new user
(fresh id, both timestamps `now`) is passed to `create`, whose failure is
propagated and whose success returns the new user's data. -/
theorem C4_createuser_branches {σ : Type} (repo : Repo σ) (st : σ)
    (freshId now : Nat) (name email : Str)
    (hv : validateUserInput name email = none) :
    (∀ v st₁, repo.getByEmail st email = (.ok v, st₁) →
      CreateUser repo st freshId now ⟨name, email⟩ =
        (.error (NewConflictError "email already in use".toList
            (.entity .ErrEmailAlreadyUsed)),
         st₁, [.getByEmail email]) ∧
      (NewConflictError "email already in use".toList
        (.entity .ErrEmailAlreadyUsed)).etype = .ConflictError) ∧
    (∀ err st₁, repo.getByEmail st email = (.error err, st₁) →
      err.etype ≠ .NotFoundError →
      CreateUser repo st freshId now ⟨name, email⟩ =
        (.error err, st₁, [.getByEmail email])) ∧
    (∀ err st₁, repo.getByEmail st email = (.error err, st₁) →
      err.etype = .NotFoundError →
      (∀ ce st₂, repo.create st₁ ⟨freshId, name, email, now, now⟩ = (some ce, st₂) →
        CreateUser repo st freshId now ⟨name, email⟩ =
          (.error ce, st₂,
           [.getByEmail email, .create ⟨freshId, name, email, now, now⟩])) ∧
      (∀ st₂, repo.create st₁ ⟨freshId, name, email, now, now⟩ = (none, st₂) →
        CreateUser repo st freshId now ⟨name, email⟩ =
          (.ok ⟨freshId, name, email⟩, st₂,
           [.getByEmail email, .create ⟨freshId, name, email, now, now⟩]))) := by
  have hnu := NewUser_ok name email freshId now hv
  refine ⟨?_, ?_, ?_⟩
  · intro v st₁ hgbe
    refine ⟨?_, rfl⟩
    unfold CreateUser
    rw [hnu]
    show (match repo.getByEmail st email with
      | (.ok _, st₁) => _
      | (.error err, st₁) => _) = _
    rw [hgbe]
  · intro err st₁ hgbe hnf
    have hb : IsNotFoundError err = false := by
      unfold IsNotFoundError
      simpa using hnf
    unfold CreateUser
    rw [hnu]
    show (match repo.getByEmail st email with
      | (.ok _, st₁) => _
      | (.error err, st₁) => _) = _
    rw [hgbe]
    show (if IsNotFoundError err then _ else _) = _
    rw [hb]
    rfl
  · intro err st₁ hgbe hnf
    have hb : IsNotFoundError err = true := by
      unfold IsNotFoundError
      simp [hnf]
    constructor
    · intro ce st₂ hcr
      unfold CreateUser
      rw [hnu]
      show (match repo.getByEmail st email with
        | (.ok _, st₁) => _
        | (.error err, st₁) => _) = _
      rw [hgbe]
      show (if IsNotFoundError err then _ else _) = _
      rw [hb]
      show (match repo.create st₁ ⟨freshId, name, email, now, now⟩ with
        | (some cerr, st₂) => _
        | (none, st₂) => _) = _
      rw [hcr]
    · intro st₂ hcr
      unfold CreateUser
      rw [hnu]
      show (match repo.getByEmail st email with
        | (.ok _, st₁) => _
        | (.error err, st₁) => _) = _
      rw [hgbe]
      show (if IsNotFoundError err then _ else _) = _
      rw [hb]
      show (match repo.create st₁ ⟨freshId, name, email, now, now⟩ with
        | (some cerr, st₂) => _
        | (none, st₂) => _) = _
      rw [hcr]
      rfl

/-! ## Claim C7 — `ListUsers` -/

/-- C7: `ListUsers` normalises `limit <= 0` to `10` and `offset < 0` to `0`
before calling `list` (the recorded call carries the normalised values), and
on success wraps the returned sequence into a response whose `Total` is the
length of the returned page and whose `Limit`/`Offset` are the normalised
values. -/
theorem C7_listusers_normalisation {σ : Type} (repo : Repo σ) (st : σ)
    (limit offset : Int) :
    (∀ users st',
      repo.list st (if limit ≤ 0 then 10 else limit)
          (if offset < 0 then 0 else offset) = (.ok users, st') →
      ListUsers repo st limit offset =
        (.ok ⟨users.map toUserResponse, (users.length : Int),
            if limit ≤ 0 then 10 else limit, if offset < 0 then 0 else offset⟩,
         st',
         [.listCall (if limit ≤ 0 then 10 else limit)
            (if offset < 0 then 0 else offset)])) ∧
    (∀ e st',
      repo.list st (if limit ≤ 0 then 10 else limit)
          (if offset < 0 then 0 else offset) = (.error e, st') →
      ListUsers repo st limit offset =
        (.error e, st',
         [.listCall (if limit ≤ 0 then 10 else limit)
            (if offset < 0 then 0 else offset)])) := by
  constructor
  · intro users st' h
    unfold ListUsers
    show (match repo.list st (if limit ≤ 0 then 10 else limit)
        (if offset < 0 then 0 else offset) with
      | (.error e, st') => _
      | (.ok users, st') => _) = _
    rw [h]
    simp [List.length_map]
  · intro e st' h
    unfold ListUsers
    show (match repo.list st (if limit ≤ 0 then 10 else limit)
        (if offset < 0 then 0 else offset) with
      | (.error e, st') => _
      | (.ok users, st') => _) = _
    rw [h]

/-! ## Claim C8 — `UpdateUser` with only the name set -/

/-- C8: an update request with empty email and non-empty name leaves the
stored email unchanged (the record written carries the old email and the
response repeats it) and moves `updated_at` to `now`, which under monotone
time is not less than its previous value. -/
theorem C8_update_name_only {σ : Type} (repo : Repo σ) (st : σ) (id : Nat)
    (req : UpdateUserRequest) (now : Nat) (u : User) (st₁ : σ)
    (hname : req.Name ≠ [])
    (hemail : req.Email = [])
    (hget : repo.getByID st id = (.ok u, st₁))
    (hmono : u.UpdatedAt ≤ now) :
    { u with Name := req.Name, UpdatedAt := now }.Email = u.Email ∧
    u.UpdatedAt ≤ { u with Name := req.Name, UpdatedAt := now }.UpdatedAt ∧
    (∀ st₂,
      repo.update st₁ { u with Name := req.Name, UpdatedAt := now } = (none, st₂) →
      UpdateUser repo st id req now =
        (.ok ⟨u.ID, req.Name, u.Email⟩, st₂,
         [.getByID id, .update { u with Name := req.Name, UpdatedAt := now }])) ∧
    (∀ e st₂,
      repo.update st₁ { u with Name := req.Name, UpdatedAt := now } = (some e, st₂) →
      UpdateUser repo st id req now =
        (.error e, st₂,
         [.getByID id, .update { u with Name := req.Name, UpdatedAt := now }])) := by
  have hstep : ∀ st₂ r,
      repo.update st₁ { u with Name := req.Name, UpdatedAt := now } = (r, st₂) →
      UpdateUser repo st id req now =
        withCall (.getByID id)
          (updateUserWrite repo st₁ { u with Name := req.Name, UpdatedAt := now }) := by
    intro st₂ r _
    unfold UpdateUser
    rw [hget]
    show (match (if req.Name = [] then .ok u else UpdateName u req.Name now :
        Except EntityErr User) with
      | .error e => _
      | .ok user₁ => _) = _
    rw [if_neg hname]
    unfold UpdateName
    rw [if_neg hname]
    show (if req.Email = [] then _ else _) = _
    rw [if_pos hemail]
  refine ⟨rfl, hmono, ?_, ?_⟩
  · intro st₂ hupd
    rw [hstep st₂ none hupd]
    unfold updateUserWrite
    rw [hupd]
    rfl
  · intro e st₂ hupd
    rw [hstep st₂ (some e) hupd]
    unfold updateUserWrite
    rw [hupd]
    rfl

/-- Closed instance of C4's theorem: on a table holding another user with
the requested email, `CreateUser` fails `Conflict` after the `getByEmail`
pre-check alone. -/
theorem C4_createuser_witness :
    validateUserInput ['J', 'o'] "a@b.c".toList = none ∧
    CreateUser tableRepo [⟨2, ['B'], "a@b.c".toList, 0, 0⟩] 1 5
        ⟨['J', 'o'], "a@b.c".toList⟩ =
      (.error (NewConflictError "email already in use".toList
          (.entity .ErrEmailAlreadyUsed)),
       [⟨2, ['B'], "a@b.c".toList, 0, 0⟩], [.getByEmail "a@b.c".toList]) :=
  ⟨by decide,
   ((C4_createuser_branches tableRepo [⟨2, ['B'], "a@b.c".toList, 0, 0⟩] 1 5
        ['J', 'o'] "a@b.c".toList (by decide)).1
      ⟨2, ['B'], "a@b.c".toList, 0, 0⟩ [⟨2, ['B'], "a@b.c".toList, 0, 0⟩]
      (by decide)).1⟩

/-- Closed instance of C8's theorem: updating only the name on the table
store keeps the email and bumps `updated_at` from 3 to 5. -/
theorem C8_update_name_only_witness :
    UpdateUser tableRepo [⟨7, ['J', 'o'], "a@b.c".toList, 3, 3⟩] 7
        ⟨['A', 'l'], []⟩ 5 =
      (.ok ⟨7, ['A', 'l'], "a@b.c".toList⟩,
       [⟨7, ['A', 'l'], "a@b.c".toList, 3, 5⟩],
       [.getByID 7, .update ⟨7, ['A', 'l'], "a@b.c".toList, 3, 5⟩]) :=
  (C8_update_name_only tableRepo [⟨7, ['J', 'o'], "a@b.c".toList, 3, 3⟩] 7
      ⟨['A', 'l'], []⟩ 5 ⟨7, ['J', 'o'], "a@b.c".toList, 3, 3⟩
      [⟨7, ['J', 'o'], "a@b.c".toList, 3, 3⟩]
      (by decide) rfl (by decide) (by decide)).2.2.1
    [⟨7, ['A', 'l'], "a@b.c".toList, 3, 5⟩] (by decide)

/-! ## Claim C3 — `UpdateUser`'s email branch -/

/-- C3 (counterexample): `UpdateUser` consults `getByEmail` before
validating the new email, so an invalid new email owned by a different user
fails `Conflict`, not `Validation` as the claim's validate-then-look-up
order implies. -/
theorem C3_counterexample :
    isValidEmail "bad@x".toList = false ∧
    (UpdateUser tableRepo
        [⟨99, ['B'], "bad@x".toList, 0, 0⟩, ⟨1, ['A'], "a@b.c".toList, 0, 0⟩]
        1 ⟨[], "bad@x".toList⟩ 5).1 =
      .error (NewConflictError "email already in use by another user".toList
        (.entity .ErrEmailAlreadyUsed)) ∧
    ErrorType.ConflictError ≠ ErrorType.ValidationError := by decide

/-- C3 (amended): with a non-empty email option, `getByEmail` is consulted
first and the new email validated only afterwards: a record with a
different identifier fails `Conflict` with no update write; a
non-`NotFound` lookup failure propagates with no update write; otherwise
(`NotFound`, or the user's own record) an invalid email fails `Validation`
with no update write, and a valid email — in particular the user's own
current email — is applied and written, the write's outcome being
propagated. -/
theorem C3_amended_update_email {σ : Type} (repo : Repo σ) (st : σ) (id : Nat)
    (req : UpdateUserRequest) (now : Nat) (u u₁ : User) (st₁ : σ)
    (hemail : req.Email ≠ [])
    (hget : repo.getByID st id = (.ok u, st₁))
    (hu₁ : (if req.Name = [] then u
            else { u with Name := req.Name, UpdatedAt := now }) = u₁) :
    (∀ v st₂, repo.getByEmail st₁ req.Email = (.ok v, st₂) → v.ID ≠ id →
      UpdateUser repo st id req now =
        (.error (NewConflictError "email already in use by another user".toList
            (.entity .ErrEmailAlreadyUsed)),
         st₂, [.getByID id, .getByEmail req.Email])) ∧
    (∀ err st₂, repo.getByEmail st₁ req.Email = (.error err, st₂) →
      err.etype ≠ .NotFoundError →
      UpdateUser repo st id req now =
        (.error err, st₂, [.getByID id, .getByEmail req.Email])) ∧
    (∀ err st₂, repo.getByEmail st₁ req.Email = (.error err, st₂) →
      err.etype = .NotFoundError → isValidEmail req.Email = false →
      UpdateUser repo st id req now =
        (.error (NewValidationError "invalid email".toList (.entity .ErrInvalidEmail)),
         st₂, [.getByID id, .getByEmail req.Email])) ∧
    (∀ v st₂, repo.getByEmail st₁ req.Email = (.ok v, st₂) → v.ID = id →
      isValidEmail req.Email = false →
      UpdateUser repo st id req now =
        (.error (NewValidationError "invalid email".toList (.entity .ErrInvalidEmail)),
         st₂, [.getByID id, .getByEmail req.Email])) ∧
    (∀ err st₂, repo.getByEmail st₁ req.Email = (.error err, st₂) →
      err.etype = .NotFoundError → isValidEmail req.Email = true →
      (∀ st₃, repo.update st₂ { u₁ with Email := req.Email, UpdatedAt := now } =
          (none, st₃) →
        UpdateUser repo st id req now =
          (.ok ⟨u₁.ID, u₁.Name, req.Email⟩, st₃,
           [.getByID id, .getByEmail req.Email,
            .update { u₁ with Email := req.Email, UpdatedAt := now }])) ∧
      (∀ e st₃, repo.update st₂ { u₁ with Email := req.Email, UpdatedAt := now } =
          (some e, st₃) →
        UpdateUser repo st id req now =
          (.error e, st₃,
           [.getByID id, .getByEmail req.Email,
            .update { u₁ with Email := req.Email, UpdatedAt := now }]))) ∧
    (∀ v st₂, repo.getByEmail st₁ req.Email = (.ok v, st₂) → v.ID = id →
      isValidEmail req.Email = true →
      (∀ st₃, repo.update st₂ { u₁ with Email := req.Email, UpdatedAt := now } =
          (none, st₃) →
        UpdateUser repo st id req now =
          (.ok ⟨u₁.ID, u₁.Name, req.Email⟩, st₃,
           [.getByID id, .getByEmail req.Email,
            .update { u₁ with Email := req.Email, UpdatedAt := now }])) ∧
      (∀ e st₃, repo.update st₂ { u₁ with Email := req.Email, UpdatedAt := now } =
          (some e, st₃) →
        UpdateUser repo st id req now =
          (.error e, st₃,
           [.getByID id, .getByEmail req.Email,
            .update { u₁ with Email := req.Email, UpdatedAt := now }]))) := by
  have hmain : UpdateUser repo st id req now =
      withCall (.getByID id) (updateUserEmailStep repo st₁ id req.Email now u₁) := by
    unfold UpdateUser
    rw [hget]
    show (match (if req.Name = [] then .ok u else UpdateName u req.Name now :
        Except EntityErr User) with
      | .error e => _
      | .ok user₁ => _) = _
    by_cases hn : req.Name = []
    · rw [if_pos hn]
      show (if req.Email = [] then _ else _) = _
      rw [if_neg hemail, ← hu₁, if_pos hn]
    · rw [if_neg hn]
      unfold UpdateName
      rw [if_neg hn]
      show (if req.Email = [] then _ else _) = _
      rw [if_neg hemail, ← hu₁, if_neg hn]
  refine ⟨?_, ?_, ?_, ?_, ?_, ?_⟩
  · intro v st₂ hgbe hne
    rw [hmain]
    unfold updateUserEmailStep
    rw [hgbe]
    show withCall (.getByID id) (if v.ID ≠ id then _ else _) = _
    rw [if_pos hne]
    rfl
  · intro err st₂ hgbe hnf
    have hb : IsNotFoundError err = false := by
      unfold IsNotFoundError
      simpa using hnf
    rw [hmain]
    unfold updateUserEmailStep
    rw [hgbe]
    show withCall (.getByID id) (if IsNotFoundError err then _ else _) = _
    rw [hb]
    rfl
  · intro err st₂ hgbe hnf hval
    have hb : IsNotFoundError err = true := by
      unfold IsNotFoundError
      simp [hnf]
    have hue : UpdateEmail u₁ req.Email now = .error .ErrInvalidEmail := by
      unfold UpdateEmail
      have hnv : ¬ (isValidEmail req.Email = true) := by simp [hval]
      rw [if_neg hemail, if_pos hnv]
    rw [hmain]
    unfold updateUserEmailStep
    rw [hgbe]
    show withCall (.getByID id) (if IsNotFoundError err then _ else _) = _
    rw [hb]
    show withCall (.getByID id)
      (match UpdateEmail u₁ req.Email now with
        | .error e => _
        | .ok user' => _) = _
    rw [hue]
    rfl
  · intro v st₂ hgbe hsame hval
    have hue : UpdateEmail u₁ req.Email now = .error .ErrInvalidEmail := by
      unfold UpdateEmail
      have hnv : ¬ (isValidEmail req.Email = true) := by simp [hval]
      rw [if_neg hemail, if_pos hnv]
    rw [hmain]
    unfold updateUserEmailStep
    rw [hgbe]
    show withCall (.getByID id) (if v.ID ≠ id then _ else _) = _
    rw [if_neg (by simp [hsame])]
    show withCall (.getByID id)
      (match UpdateEmail u₁ req.Email now with
        | .error e => _
        | .ok user' => _) = _
    rw [hue]
    rfl
  · intro err st₂ hgbe hnf hval
    have hb : IsNotFoundError err = true := by
      unfold IsNotFoundError
      simp [hnf]
    have hue : UpdateEmail u₁ req.Email now =
        .ok { u₁ with Email := req.Email, UpdatedAt := now } := by
      unfold UpdateEmail
      have hnv : ¬ ¬ (isValidEmail req.Email = true) := by simp [hval]
      rw [if_neg hemail, if_neg hnv]
    constructor
    · intro st₃ hupd
      rw [hmain]
      unfold updateUserEmailStep
      rw [hgbe]
      show withCall (.getByID id) (if IsNotFoundError err then _ else _) = _
      rw [hb]
      show withCall (.getByID id)
        (match UpdateEmail u₁ req.Email now with
          | .error e => _
          | .ok user' => _) = _
      rw [hue]
      show withCall (.getByID id) (withCall (.getByEmail req.Email)
        (updateUserWrite repo st₂ { u₁ with Email := req.Email, UpdatedAt := now })) = _
      unfold updateUserWrite
      rw [hupd]
      rfl
    · intro e st₃ hupd
      rw [hmain]
      unfold updateUserEmailStep
      rw [hgbe]
      show withCall (.getByID id) (if IsNotFoundError err then _ else _) = _
      rw [hb]
      show withCall (.getByID id)
        (match UpdateEmail u₁ req.Email now with
          | .error e => _
          | .ok user' => _) = _
      rw [hue]
      show withCall (.getByID id) (withCall (.getByEmail req.Email)
        (updateUserWrite repo st₂ { u₁ with Email := req.Email, UpdatedAt := now })) = _
      unfold updateUserWrite
      rw [hupd]
      rfl
  · intro v st₂ hgbe hsame hval
    have hue : UpdateEmail u₁ req.Email now =
        .ok { u₁ with Email := req.Email, UpdatedAt := now } := by
      unfold UpdateEmail
      have hnv : ¬ ¬ (isValidEmail req.Email = true) := by simp [hval]
      rw [if_neg hemail, if_neg hnv]
    constructor
    · intro st₃ hupd
      rw [hmain]
      unfold updateUserEmailStep
      rw [hgbe]
      show withCall (.getByID id) (if v.ID ≠ id then _ else _) = _
      rw [if_neg (by simp [hsame])]
      show withCall (.getByID id)
        (match UpdateEmail u₁ req.Email now with
          | .error e => _
          | .ok user' => _) = _
      rw [hue]
      show withCall (.getByID id) (withCall (.getByEmail req.Email)
        (updateUserWrite repo st₂ { u₁ with Email := req.Email, UpdatedAt := now })) = _
      unfold updateUserWrite
      rw [hupd]
      rfl
    · intro e st₃ hupd
      rw [hmain]
      unfold updateUserEmailStep
      rw [hgbe]
      show withCall (.getByID id) (if v.ID ≠ id then _ else _) = _
      rw [if_neg (by simp [hsame])]
      show withCall (.getByID id)
        (match UpdateEmail u₁ req.Email now with
          | .error e => _
          | .ok user' => _) = _
      rw [hue]
      show withCall (.getByID id) (withCall (.getByEmail req.Email)
        (updateUserWrite repo st₂ { u₁ with Email := req.Email, UpdatedAt := now })) = _
      unfold updateUserWrite
      rw [hupd]
      rfl

/-- Closed instance of C3's amended theorem: re-setting a user's email to
its own current value passes the `getByEmail` check (same identifier) and
succeeds. -/
theorem C3_amended_update_email_witness :
    UpdateUser tableRepo [⟨1, ['A'], "a@b.c".toList, 0, 0⟩] 1
        ⟨[], "a@b.c".toList⟩ 5 =
      (.ok ⟨1, ['A'], "a@b.c".toList⟩, [⟨1, ['A'], "a@b.c".toList, 0, 5⟩],
       [.getByID 1, .getByEmail "a@b.c".toList,
        .update ⟨1, ['A'], "a@b.c".toList, 0, 5⟩]) :=
  ((C3_amended_update_email tableRepo [⟨1, ['A'], "a@b.c".toList, 0, 0⟩] 1
      ⟨[], "a@b.c".toList⟩ 5 ⟨1, ['A'], "a@b.c".toList, 0, 0⟩
      ⟨1, ['A'], "a@b.c".toList, 0, 0⟩ [⟨1, ['A'], "a@b.c".toList, 0, 0⟩]
      (by decide) (by decide) (by decide)).2.2.2.2.2
    ⟨1, ['A'], "a@b.c".toList, 0, 0⟩ [⟨1, ['A'], "a@b.c".toList, 0, 0⟩]
    (by decide) rfl (by decide)).1
    [⟨1, ['A'], "a@b.c".toList, 0, 5⟩] (by decide)

/-! ## Claim C9 — timestamp invariants -/

theorem find?_none {α : Type} (p : α → Bool) (l : List α)
    (h : ∀ x ∈ l, p x = false) : l.find? p = none := by
  induction l with
  | nil => rfl
  | cons a t ih =>
      have ha := h a (by simp)
      simp only [List.find?, ha]
      exact ih fun x hx => h x (by simp [hx])

theorem find?_append_none {α : Type} (p : α → Bool) (l₁ l₂ : List α)
    (h : ∀ x ∈ l₁, p x = false) : (l₁ ++ l₂).find? p = l₂.find? p := by
  induction l₁ with
  | nil => rfl
  | cons a t ih =>
      have ha := h a (by simp)
      rw [List.cons_append]
      simp only [List.find?, ha]
      exact ih fun x hx => h x (by simp [hx])

theorem any_false {α : Type} (p : α → Bool) (l : List α)
    (h : ∀ x ∈ l, p x = false) : l.any p = false := by
  induction l with
  | nil => rfl
  | cons a t ih =>
      have ha := h a (by simp)
      simp only [List.any_cons, ha, Bool.false_or]
      exact ih fun x hx => h x (by simp [hx])

/-- The success path of `CreateUser` over an abstract repository. -/
theorem CreateUser_notfound_ok {σ : Type} (repo : Repo σ) (st : σ)
    (fid now : Nat) (name email : Str)
    (hv : validateUserInput name email = none)
    (err : DomainError) (st₁ : σ)
    (hgbe : repo.getByEmail st email = (.error err, st₁))
    (hnf : err.etype = .NotFoundError)
    (st₂ : σ) (hcr : repo.create st₁ ⟨fid, name, email, now, now⟩ = (none, st₂)) :
    CreateUser repo st fid now ⟨name, email⟩ =
      (.ok ⟨fid, name, email⟩, st₂,
       [.getByEmail email, .create ⟨fid, name, email, now, now⟩]) := by
  unfold CreateUser
  rw [NewUser_ok name email fid now hv]
  show (match repo.getByEmail st email with
    | (.ok _, st₁) => _
    | (.error err, st₁) => _) = _
  rw [hgbe]
  show (if IsNotFoundError err then _ else _) = _
  rw [show IsNotFoundError err = true by unfold IsNotFoundError; simp [hnf]]
  show (match repo.create st₁ ⟨fid, name, email, now, now⟩ with
    | (some cerr, st₂) => _
    | (none, st₂) => _) = _
  rw [hcr]
  rfl

/-- The success path of `GetUser` over an abstract repository. -/
theorem GetUser_ok {σ : Type} (repo : Repo σ) (st : σ) (id : Nat)
    (u : User) (st₁ : σ) (h : repo.getByID st id = (.ok u, st₁)) :
    GetUser repo st id = (.ok (toUserResponse u), st₁, [.getByID id]) := by
  unfold GetUser
  rw [h]

theorem UpdateName_ok_shape (w : User) (nm : Str) (now : Nat) (w' : User)
    (h : UpdateName w nm now = .ok w') :
    w' = { w with Name := nm, UpdatedAt := now } := by
  unfold UpdateName at h
  by_cases hn : nm = []
  · rw [if_pos hn] at h
    exact Except.noConfusion h
  · rw [if_neg hn] at h
    cases h
    rfl

theorem UpdateEmail_ok_shape (w : User) (em : Str) (now : Nat) (w' : User)
    (h : UpdateEmail w em now = .ok w') :
    w' = { w with Email := em, UpdatedAt := now } := by
  unfold UpdateEmail at h
  by_cases hn : em = []
  · rw [if_pos hn] at h
    exact Except.noConfusion h
  · rw [if_neg hn] at h
    by_cases hv : ¬ isValidEmail em = true
    · rw [if_pos hv] at h
      exact Except.noConfusion h
    · rw [if_neg hv] at h
      cases h
      rfl

/-- C9: a freshly constructed user has `created_at = updated_at = now`;
every successful `UpdateName`/`UpdateEmail` sets `updated_at` to the
current time and keeps `created_at`, so under monotone time
`updated_at >= created_at` is preserved; and `CreateUser` on the table
store followed by `GetUser` on the new id returns the same name and email,
the stored record carrying `created_at == updated_at`. -/
theorem C9_timestamp_invariants :
    (∀ (name email : Str) (fid now : Nat) (w : User),
      NewUser name email fid now = .ok w →
      w.CreatedAt = now ∧ w.UpdatedAt = now ∧ w.CreatedAt = w.UpdatedAt) ∧
    (∀ (w : User) (nm : Str) (now : Nat) (w' : User),
      UpdateName w nm now = .ok w' →
      w'.UpdatedAt = now ∧ w'.CreatedAt = w.CreatedAt ∧
      (w.CreatedAt ≤ now → w'.CreatedAt ≤ w'.UpdatedAt)) ∧
    (∀ (w : User) (em : Str) (now : Nat) (w' : User),
      UpdateEmail w em now = .ok w' →
      w'.UpdatedAt = now ∧ w'.CreatedAt = w.CreatedAt ∧
      (w.CreatedAt ≤ now → w'.CreatedAt ≤ w'.UpdatedAt)) ∧
    (∀ (st : DbState) (name email : Str) (fid now : Nat),
      validateUserInput name email = none →
      (∀ v ∈ st, v.Email ≠ email) →
      (∀ v ∈ st, v.ID ≠ fid) →
      CreateUser tableRepo st fid now ⟨name, email⟩ =
        (.ok ⟨fid, name, email⟩, st ++ [⟨fid, name, email, now, now⟩],
         [.getByEmail email, .create ⟨fid, name, email, now, now⟩]) ∧
      GetUser tableRepo (st ++ [⟨fid, name, email, now, now⟩]) fid =
        (.ok ⟨fid, name, email⟩, st ++ [⟨fid, name, email, now, now⟩],
         [.getByID fid]) ∧
      (⟨fid, name, email, now, now⟩ : User).CreatedAt =
        (⟨fid, name, email, now, now⟩ : User).UpdatedAt) := by
  refine ⟨?_, ?_, ?_, ?_⟩
  · intro name email fid now w h
    unfold NewUser at h
    cases hv : validateUserInput name email with
    | some e =>
        rw [hv] at h
        exact Except.noConfusion h
    | none =>
        rw [hv] at h
        cases h
        exact ⟨rfl, rfl, rfl⟩
  · intro w nm now w' h
    have := UpdateName_ok_shape w nm now w' h
    subst this
    exact ⟨rfl, rfl, fun hc => hc⟩
  · intro w em now w' h
    have := UpdateEmail_ok_shape w em now w' h
    subst this
    exact ⟨rfl, rfl, fun hc => hc⟩
  · intro st name email fid now hv hne hid
    have hq : queryByEmail st email = .noRows := by
      unfold queryByEmail
      rw [find?_none _ _ fun v hv' => decide_eq_false (hne v hv')]
    have hgbe : tableRepo.getByEmail st email =
        (.error (NewNotFoundError "user not found by email".toList
          (.entity .ErrUserNotFound)), st) := by
      show (RepoGetByEmail (queryByEmail st email), st) = _
      rw [hq]
      rfl
    have ha1 : (st.any fun v => decide (v.ID = fid)) = false :=
      any_false _ _ fun v hv' => decide_eq_false (hid v hv')
    have ha2 : (st.any fun v => decide (v.Email = email)) = false :=
      any_false _ _ fun v hv' => decide_eq_false (hne v hv')
    have hins : execInsert st ⟨fid, name, email, now, now⟩ =
        (.ok (.ok 1), st ++ [⟨fid, name, email, now, now⟩]) := by
      unfold execInsert
      rw [if_neg (by rw [ha1]; exact Bool.noConfusion), if_neg (by rw [ha2]; exact Bool.noConfusion)]
    have hcr : tableRepo.create st ⟨fid, name, email, now, now⟩ =
        (none, st ++ [⟨fid, name, email, now, now⟩]) := by
      show (match execInsert st ⟨fid, name, email, now, now⟩ with
        | (o, st') => (RepoCreate o, st')) = _
      rw [hins]
      rfl
    refine ⟨?_, ?_, rfl⟩
    · exact CreateUser_notfound_ok tableRepo st fid now name email hv
        (NewNotFoundError "user not found by email".toList (.entity .ErrUserNotFound))
        st hgbe rfl (st ++ [⟨fid, name, email, now, now⟩]) hcr
    · have hfind : (st ++ [(⟨fid, name, email, now, now⟩ : User)]).find?
          (fun v => decide (v.ID = fid)) = some ⟨fid, name, email, now, now⟩ := by
        rw [find?_append_none _ _ _ fun v hv' => decide_eq_false (hid v hv')]
        simp [List.find?]
      have hgid : tableRepo.getByID (st ++ [⟨fid, name, email, now, now⟩]) fid =
          (.ok ⟨fid, name, email, now, now⟩, st ++ [⟨fid, name, email, now, now⟩]) := by
        show (RepoGetByID (queryByID (st ++ [⟨fid, name, email, now, now⟩]) fid),
          st ++ [⟨fid, name, email, now, now⟩]) = _
        unfold queryByID
        rw [hfind]
        rfl
      exact GetUser_ok tableRepo (st ++ [⟨fid, name, email, now, now⟩]) fid
        ⟨fid, name, email, now, now⟩ (st ++ [⟨fid, name, email, now, now⟩]) hgid

end GoClean

